import Mathlib

/-!
Shallow embedding of the subscription ledger of `bot.py`
(class `SubscriptionManager`, lines 37-134).

Modelling choices:
* Python dicts become insertion-ordered association lists with dict
  update / lookup / delete semantics (`dictSet`, `dictGet?`, `dictDel`):
  assignment replaces the value in place when the key is present and
  appends otherwise, deletion removes the entry for the key.
* Monetary amounts (`total_cost`, `cost_per_person`) are exact rationals;
  Python's `round(x, 2)` is modelled as round-half-to-even at two decimal
  places (`round2`), the rounding mode of Python's builtin `round`.
* Every call to `datetime.now()` enters as an explicit parameter: the
  timestamp interpolated into the subscription key, the `created_at` and
  `next_payment` ISO strings, and the `last_payment` stamp are opaque
  strings supplied by the caller.
* `add_subscription` evaluates `total_cost / len(members)` with no guard;
  on an empty member list Python raises `ZeroDivisionError`.  The model
  returns `none` in exactly that case and `some` otherwise.
* The `groups` mapping of the persisted store is never read or written by
  any ledger operation in the source, so it is omitted from the model.
* Group and member identifiers are strings (the spec's collaborator
  interface supplies them as opaque strings, and the source normalises
  with `str(...)` before comparing).
-/

/-- Dict lookup: first entry whose key matches, as Python `d.get(k)`. -/
def dictGet? {α : Type} : List (String × α) → String → Option α
  | [], _ => none
  | p :: rest, k => if p.1 = k then some p.2 else dictGet? rest k

/-- Dict membership test, as Python `k in d`. -/
def dictHas {α : Type} (d : List (String × α)) (k : String) : Bool :=
  (dictGet? d k).isSome

/-- Dict assignment `d[k] = v`: replace in place if the key is present,
append at the end otherwise. -/
def dictSet {α : Type} : List (String × α) → String → α → List (String × α)
  | [], k, v => [(k, v)]
  | p :: rest, k, v => if p.1 = k then (k, v) :: rest else p :: dictSet rest k v

/-- Dict deletion `del d[k]`: drop the entry for the key. -/
def dictDel {α : Type} : List (String × α) → String → List (String × α)
  | [], _ => []
  | p :: rest, k => if p.1 = k then dictDel rest k else p :: dictDel rest k

/-- Round-half-to-even of a rational to an integer, the rounding mode of
Python's builtin `round`. -/
def roundHalfEven (q : ℚ) : ℤ :=
  let f : ℤ := ⌊q⌋
  let r : ℚ := q - f
  if r < 1 / 2 then f
  else if 1 / 2 < r then f + 1
  else if f % 2 = 0 then f else f + 1

/-- Python's `round(x, 2)`: round to two decimal places, ties to even. -/
def round2 (q : ℚ) : ℚ :=
  (roundHalfEven (100 * q) : ℚ) / 100

/-- One subscription record, the value stored under
`data['subscriptions'][sub_id]` (bot.py lines 64-72). -/
structure Subscription where
  name : String
  group_id : String
  total_cost : ℚ
  members : List String
  cost_per_person : ℚ
  created_at : String
  next_payment : String
deriving DecidableEq, Repr

/-- One payment record, the value stored under
`data['payments'][payment_key]` (bot.py lines 77-80). -/
structure Payment where
  paid : Bool
  last_payment : Option String
deriving DecidableEq, Repr

/-- The in-memory store `self.data` (the unused `groups` mapping omitted). -/
structure Store where
  subscriptions : List (String × Subscription)
  payments : List (String × Payment)
deriving DecidableEq, Repr

/-- `sub_id = f"{group_id}_{name}_{datetime.now().timestamp()}"` (line 61). -/
def subKey (group_id name ts : String) : String :=
  group_id ++ "_" ++ name ++ "_" ++ ts

/-- `payment_key = f"{sub_id}_{member}"` (lines 76, 98, 110, 126). -/
def paymentKey (sub_id member : String) : String :=
  sub_id ++ "_" ++ member

/-- `SubscriptionManager.add_subscription` (lines 59-83).  `ts` is the
key timestamp, `created_at` / `next_payment` the two ISO strings taken at
creation time.  `none` models the `ZeroDivisionError` raised by
`total_cost / len(members)` on an empty member list. -/
def addSubscription (st : Store) (group_id name : String) (total_cost : ℚ)
    (members : List String) (ts created_at next_payment : String) :
    Option (String × Store) :=
  if members = [] then none
  else
    let sub_id := subKey group_id name ts
    let cost_per_person : ℚ := total_cost / (members.length : ℚ)
    let sub : Subscription :=
      ⟨name, group_id, total_cost, members, round2 cost_per_person,
        created_at, next_payment⟩
    let subs := dictSet st.subscriptions sub_id sub
    let pays := members.foldl
      (fun acc m => dictSet acc (paymentKey sub_id m) ⟨false, none⟩)
      st.payments
    some (sub_id, ⟨subs, pays⟩)

/-- A subscription together with its key, the `{**sub, 'id': sub_id}`
merge produced by `get_subscriptions` (line 88). -/
structure SubWithId where
  name : String
  group_id : String
  total_cost : ℚ
  members : List String
  cost_per_person : ℚ
  created_at : String
  next_payment : String
  id : String
deriving DecidableEq, Repr

/-- `{**sub, 'id': sub_id}`. -/
def withId (sub_id : String) (s : Subscription) : SubWithId :=
  ⟨s.name, s.group_id, s.total_cost, s.members, s.cost_per_person,
    s.created_at, s.next_payment, sub_id⟩

/-- `SubscriptionManager.get_subscriptions` (lines 85-91). -/
def getSubscriptions (st : Store) (group_id : String) : List SubWithId :=
  (st.subscriptions.filter (fun p => p.2.group_id == group_id)).map
    (fun p => withId p.1 p.2)

/-- One entry of the list returned by `get_member_dues` (lines 100-105). -/
structure DueEntry where
  subscription : String
  amount : ℚ
  paid : Bool
  next_payment : String
deriving DecidableEq, Repr

/-- The entry `get_member_dues` appends for subscription `(sub_id, s)`:
`payments.get(payment_key, {})` followed by `.get('paid', False)`. -/
def dueOf (st : Store) (sub_id : String) (s : Subscription)
    (member_id : String) : DueEntry :=
  ⟨s.name, s.cost_per_person,
    ((dictGet? st.payments (paymentKey sub_id member_id)).map Payment.paid).getD false,
    s.next_payment⟩

/-- `SubscriptionManager.get_member_dues` (lines 93-106): one entry per
subscription of the group containing the member, in store order. -/
def getMemberDues (st : Store) (group_id member_id : String) : List DueEntry :=
  (st.subscriptions.filter
      (fun p => p.2.group_id == group_id && p.2.members.contains member_id)).map
    (fun p => dueOf st p.1 p.2 member_id)

/-- `get_member_dues` instrumented with the loop's `sub_id`, recording
which subscription produced each entry. -/
def getMemberDuesWithId (st : Store) (group_id member_id : String) :
    List (String × DueEntry) :=
  (st.subscriptions.filter
      (fun p => p.2.group_id == group_id && p.2.members.contains member_id)).map
    (fun p => (p.1, dueOf st p.1 p.2 member_id))

/-- `SubscriptionManager.mark_payment` (lines 108-117).  Returns the
boolean result together with the store after the call. -/
def markPayment (st : Store) (sub_id member_id : String) (paid : Bool)
    (now : String) : Bool × Store :=
  let key := paymentKey sub_id member_id
  match dictGet? st.payments key with
  | some old =>
      (true,
        ⟨st.subscriptions,
          dictSet st.payments key
            ⟨paid, if paid then some now else old.last_payment⟩⟩)
  | none => (false, st)

/-- `SubscriptionManager.delete_subscription` (lines 119-134). -/
def deleteSubscription (st : Store) (sub_id group_id : String) : Bool × Store :=
  match dictGet? st.subscriptions sub_id with
  | some sub =>
      if sub.group_id = group_id then
        (true,
          ⟨dictDel st.subscriptions sub_id,
            sub.members.foldl
              (fun acc m => dictDel acc (paymentKey sub_id m)) st.payments⟩)
      else (false, st)
  | none => (false, st)

/-- A payment key references an existing subscription: it reads
`sub_id ++ "_" ++ m` for some stored subscription key `sub_id`. -/
def refsExisting (subs : List (String × Subscription)) (k : String) : Prop :=
  ∃ sub_id m, dictHas subs sub_id = true ∧ k = paymentKey sub_id m

/-- The section-3 store invariant: every payment record's subscription key
references an existing subscription, and every member of every
subscription's member list has exactly one payment record scoped to that
subscription (the store being a dict, one record per key). -/
def storeInv (st : Store) : Prop :=
  (∀ p ∈ st.payments, refsExisting st.subscriptions p.1) ∧
  (∀ p ∈ st.subscriptions, ∀ m ∈ p.2.members,
    dictHas st.payments (paymentKey p.1 m) = true)

/-! ### Helper lemmas about the dict operations -/

theorem dictGet?_dictSet_self {α : Type} (d : List (String × α)) (k : String)
    (v : α) : dictGet? (dictSet d k v) k = some v := by
  induction d with
  | nil => simp [dictSet, dictGet?]
  | cons p rest ih =>
      by_cases h : p.1 = k
      · simp [dictSet, dictGet?, h]
      · simp [dictSet, dictGet?, h, ih]

theorem dictGet?_dictSet_ne {α : Type} (d : List (String × α)) {k k' : String}
    (v : α) (h : k' ≠ k) : dictGet? (dictSet d k v) k' = dictGet? d k' := by
  have h' : ¬ k = k' := fun hk => h hk.symm
  induction d with
  | nil => simp [dictSet, dictGet?, h']
  | cons p rest ih =>
      by_cases hp : p.1 = k
      · subst hp
        simp [dictSet, dictGet?, h']
      · by_cases hp' : p.1 = k'
        · simp [dictSet, dictGet?, hp, hp', h]
        · simp [dictSet, dictGet?, hp, hp', ih]

theorem mem_dictSet {α : Type} {d : List (String × α)} {k : String} {v : α}
    {p : String × α} (h : p ∈ dictSet d k v) : p = (k, v) ∨ p ∈ d := by
  induction d with
  | nil => simpa [dictSet] using h
  | cons q rest ih =>
      by_cases hq : q.1 = k
      · simp only [dictSet, if_pos hq, List.mem_cons] at h
        rcases h with h | h
        · exact Or.inl h
        · exact Or.inr (List.mem_cons_of_mem _ h)
      · simp only [dictSet, if_neg hq, List.mem_cons] at h
        rcases h with h | h
        · exact Or.inr (h ▸ List.mem_cons_self _ _)
        · rcases ih h with h' | h'
          · exact Or.inl h'
          · exact Or.inr (List.mem_cons_of_mem _ h')

theorem dictHas_dictSet {α : Type} (d : List (String × α)) (k k' : String)
    (v : α) : dictHas (dictSet d k v) k' = (dictHas d k' || (k' == k)) := by
  by_cases h : k' = k
  · subst h
    simp [dictHas, dictGet?_dictSet_self]
  · simp [dictHas, dictGet?_dictSet_ne d v h, h]

theorem dictGet?_dictDel_self {α : Type} (d : List (String × α)) (k : String) :
    dictGet? (dictDel d k) k = none := by
  induction d with
  | nil => simp [dictDel, dictGet?]
  | cons p rest ih =>
      by_cases h : p.1 = k
      · simp [dictDel, h, ih]
      · simp [dictDel, dictGet?, h, ih]

theorem dictGet?_dictDel_ne {α : Type} (d : List (String × α)) {k k' : String}
    (h : k' ≠ k) : dictGet? (dictDel d k) k' = dictGet? d k' := by
  have h' : ¬ k = k' := fun hk => h hk.symm
  induction d with
  | nil => simp [dictDel]
  | cons p rest ih =>
      by_cases hp : p.1 = k
      · subst hp
        simp [dictDel, dictGet?, h', ih]
      · simp [dictDel, dictGet?, hp, ih]

theorem mem_dictDel {α : Type} {d : List (String × α)} {k : String}
    {p : String × α} : p ∈ dictDel d k ↔ p ∈ d ∧ p.1 ≠ k := by
  induction d with
  | nil => simp [dictDel]
  | cons q rest ih =>
      by_cases hq : q.1 = k
      · simp only [dictDel, if_pos hq, ih, List.mem_cons]
        constructor
        · rintro ⟨h1, h2⟩
          exact ⟨Or.inr h1, h2⟩
        · rintro ⟨h1 | h1, h2⟩
          · exact absurd (h1 ▸ hq) h2
          · exact ⟨h1, h2⟩
      · simp only [dictDel, if_neg hq, List.mem_cons, ih]
        constructor
        · rintro (h | ⟨h1, h2⟩)
          · exact ⟨Or.inl h, h ▸ hq⟩
          · exact ⟨Or.inr h1, h2⟩
        · rintro ⟨h1 | h1, h2⟩
          · exact Or.inl h1
          · exact Or.inr ⟨h1, h2⟩

theorem dictGet?_mem {α : Type} {d : List (String × α)} {k : String} {v : α}
    (h : dictGet? d k = some v) : (k, v) ∈ d := by
  induction d with
  | nil => simp [dictGet?] at h
  | cons p rest ih =>
      by_cases hp : p.1 = k
      · simp only [dictGet?, if_pos hp, Option.some.injEq] at h
        have hpv : p = (k, v) := by
          cases p
          simp only [Prod.mk.injEq]
          exact ⟨hp, h⟩
        rw [← hpv]
        exact List.mem_cons_self _ _
      · simp only [dictGet?, if_neg hp] at h
        exact List.mem_cons_of_mem _ (ih h)

theorem length_dictSet_of_has {α : Type} {d : List (String × α)} {k : String}
    (v : α) (h : dictHas d k = true) : (dictSet d k v).length = d.length := by
  induction d with
  | nil => simp [dictHas, dictGet?] at h
  | cons p rest ih =>
      by_cases hp : p.1 = k
      · simp [dictSet, hp]
      · simp only [dictHas, dictGet?, if_neg hp] at h
        simp [dictSet, hp, ih h]

theorem mem_foldl_dictSet {α : Type} (f : String → String) (v : α) :
    ∀ (ms : List String) (d : List (String × α)) (p : String × α),
      p ∈ ms.foldl (fun acc m => dictSet acc (f m) v) d →
      (∃ m ∈ ms, p = (f m, v)) ∨ p ∈ d := by
  intro ms
  induction ms with
  | nil => intro d p h; exact Or.inr h
  | cons m rest ih =>
      intro d p h
      simp only [List.foldl_cons] at h
      rcases ih (dictSet d (f m) v) p h with h' | h'
      · rcases h' with ⟨m', hm', hp⟩
        exact Or.inl ⟨m', List.mem_cons_of_mem _ hm', hp⟩
      · rcases mem_dictSet h' with h'' | h''
        · exact Or.inl ⟨m, List.mem_cons_self _ _, h''⟩
        · exact Or.inr h''

theorem dictHas_foldl_dictSet_mono {α : Type} (f : String → String) (v : α) :
    ∀ (ms : List String) (d : List (String × α)) (k : String),
      dictHas d k = true →
      dictHas (ms.foldl (fun acc m => dictSet acc (f m) v) d) k = true := by
  intro ms
  induction ms with
  | nil => intro d k h; exact h
  | cons m rest ih =>
      intro d k h
      simp only [List.foldl_cons]
      apply ih
      rw [dictHas_dictSet, h]
      rfl

theorem dictHas_foldl_dictSet_of_mem {α : Type} (f : String → String) (v : α) :
    ∀ (ms : List String) (d : List (String × α)) (m : String), m ∈ ms →
      dictHas (ms.foldl (fun acc m => dictSet acc (f m) v) d) (f m) = true := by
  intro ms
  induction ms with
  | nil => intro d m h; cases h
  | cons m0 rest ih =>
      intro d m h
      simp only [List.foldl_cons]
      rcases List.mem_cons.mp h with h' | h'
      · subst h'
        exact dictHas_foldl_dictSet_mono f v rest _ (f m)
          (by rw [dictHas_dictSet]; simp)
      · exact ih _ m h'

theorem mem_foldl_dictDel {α : Type} (f : String → String) :
    ∀ (ms : List String) (d : List (String × α)) (p : String × α),
      p ∈ ms.foldl (fun acc m => dictDel acc (f m)) d ↔
        p ∈ d ∧ ∀ m ∈ ms, p.1 ≠ f m := by
  intro ms
  induction ms with
  | nil => intro d p; simp
  | cons m rest ih =>
      intro d p
      simp only [List.foldl_cons, ih, mem_dictDel, List.mem_cons]
      constructor
      · rintro ⟨⟨h1, h2⟩, h3⟩
        refine ⟨h1, ?_⟩
        rintro m' (hm' | hm')
        · exact hm' ▸ h2
        · exact h3 m' hm'
      · rintro ⟨h1, h2⟩
        exact ⟨⟨h1, h2 m (Or.inl rfl)⟩, fun m' hm' => h2 m' (Or.inr hm')⟩

theorem dictGet?_foldl_dictDel_of_ne {α : Type} (f : String → String) :
    ∀ (ms : List String) (d : List (String × α)) (k : String),
      (∀ m ∈ ms, k ≠ f m) →
      dictGet? (ms.foldl (fun acc m => dictDel acc (f m)) d) k = dictGet? d k := by
  intro ms
  induction ms with
  | nil => intro d k _; rfl
  | cons m rest ih =>
      intro d k h
      simp only [List.foldl_cons]
      rw [ih (dictDel d (f m)) k (fun m' hm' => h m' (List.mem_cons_of_mem _ hm'))]
      exact dictGet?_dictDel_ne d (h m (List.mem_cons_self _ _))

theorem dictGet?_foldl_dictDel_of_mem {α : Type} (f : String → String) :
    ∀ (ms : List String) (d : List (String × α)) (m : String), m ∈ ms →
      dictGet? (ms.foldl (fun acc m => dictDel acc (f m)) d) (f m) = none := by
  intro ms d m hm
  cases h : dictGet? (ms.foldl (fun acc x => dictDel acc (f x)) d) (f m) with
  | none => rfl
  | some v =>
      have hmem := dictGet?_mem h
      rw [mem_foldl_dictDel] at hmem
      exact absurd rfl (hmem.2 m hm)

theorem nodupKeys_dictSet {α : Type} {d : List (String × α)} (k : String)
    (v : α) (h : (d.map Prod.fst).Nodup) :
    ((dictSet d k v).map Prod.fst).Nodup := by
  induction d with
  | nil => simp [dictSet]
  | cons p rest ih =>
      simp only [List.map_cons, List.nodup_cons] at h
      by_cases hp : p.1 = k
      · simp only [dictSet, if_pos hp, List.map_cons, List.nodup_cons]
        exact ⟨hp ▸ h.1, h.2⟩
      · simp only [dictSet, if_neg hp, List.map_cons, List.nodup_cons]
        refine ⟨?_, ih h.2⟩
        intro hmem
        rcases List.mem_map.mp hmem with ⟨q, hq, hq1⟩
        rcases mem_dictSet hq with h' | h'
        · exact hp (by rw [← hq1, h'])
        · exact h.1 (List.mem_map.mpr ⟨q, h', hq1⟩)

theorem count_dictSet_self {α : Type} [DecidableEq α] {d : List (String × α)}
    (k : String) (v : α) (h : (d.map Prod.fst).Nodup) :
    (dictSet d k v).count (k, v) = 1 := by
  induction d with
  | nil => simp [dictSet]
  | cons p rest ih =>
      simp only [List.map_cons, List.nodup_cons] at h
      by_cases hp : p.1 = k
      · subst hp
        simp only [dictSet, if_pos rfl, List.count_cons]
        have hz : rest.count (p.1, v) = 0 := by
          rw [List.count_eq_zero]
          intro hmem
          exact h.1 (List.mem_map.mpr ⟨(p.1, v), hmem, rfl⟩)
        simp [hz]
      · simp only [dictSet, if_neg hp, List.count_cons, ih h.2]
        have : ¬ (p = (k, v)) := by
          intro hpk
          exact hp (by rw [hpk])
        simp [this]

/-! ### Rounding error bounds -/

theorem abs_sub_roundHalfEven (q : ℚ) : |q - roundHalfEven q| ≤ 1 / 2 := by
  have h0 : (0 : ℚ) ≤ q - ⌊q⌋ := by
    have := Int.floor_le q
    linarith
  have h1 : q - ⌊q⌋ < 1 := by
    have := Int.lt_floor_add_one q
    push_cast at this
    linarith
  rw [roundHalfEven]
  by_cases hlt : q - (⌊q⌋ : ℚ) < 1 / 2
  · simp only [if_pos hlt]
    rw [abs_le]
    constructor <;> linarith
  · simp only [if_neg hlt]
    by_cases hgt : (1 : ℚ) / 2 < q - (⌊q⌋ : ℚ)
    · simp only [if_pos hgt]
      rw [abs_le]
      push_cast
      constructor <;> linarith
    · simp only [if_neg hgt]
      have heq : q - (⌊q⌋ : ℚ) = 1 / 2 := le_antisymm (not_lt.mp hgt) (not_lt.mp hlt)
      by_cases hev : ⌊q⌋ % 2 = 0
      · simp only [if_pos hev]
        rw [abs_le]
        constructor <;> linarith
      · simp only [if_neg hev]
        rw [abs_le]
        push_cast
        constructor <;> linarith

theorem abs_sub_round2 (q : ℚ) : |q - round2 q| ≤ 1 / 200 := by
  have h := abs_sub_roundHalfEven (100 * q)
  rw [round2]
  have heq : q - (roundHalfEven (100 * q) : ℚ) / 100 =
      (100 * q - (roundHalfEven (100 * q) : ℚ)) / 100 := by ring
  rw [heq, abs_div]
  have h100 : |(100 : ℚ)| = 100 := by norm_num
  rw [h100, div_le_iff₀ (by norm_num : (0:ℚ) < 100)]
  linarith

/-! ### Claim theorems -/

/-- Claim C4: `mark_payment` on an existing `(subscriptionKey, memberId)`
payment record returns `True`, sets the paid flag and a non-null
last-payment timestamp; on a missing record it returns `False` and leaves
the entire store unchanged. -/
theorem markPayment_spec :
    (∀ (st : Store) (sub_id member_id now : String),
      dictHas st.payments (paymentKey sub_id member_id) = true →
        (markPayment st sub_id member_id true now).1 = true ∧
        dictGet? (markPayment st sub_id member_id true now).2.payments
          (paymentKey sub_id member_id) = some ⟨true, some now⟩) ∧
    (∀ (st : Store) (sub_id member_id now : String) (paid : Bool),
      dictHas st.payments (paymentKey sub_id member_id) = false →
        markPayment st sub_id member_id paid now = (false, st)) := by
  constructor
  · intro st sub_id member_id now h
    rw [dictHas, Option.isSome_iff_exists] at h
    obtain ⟨old, hold⟩ := h
    simp [markPayment, hold, dictGet?_dictSet_self]
  · intro st sub_id member_id now paid h
    rw [dictHas] at h
    have h' : dictGet? st.payments (paymentKey sub_id member_id) = none := by
      cases hk : dictGet? st.payments (paymentKey sub_id member_id) with
      | none => rfl
      | some v => rw [hk] at h; cases h
    simp [markPayment, h']

/-- Witness for C4 at concrete stores. -/
theorem markPayment_spec_witness :
    ((markPayment ⟨[], [("s_a", ⟨false, none⟩)]⟩ "s" "a" true "T").1 = true ∧
      dictGet? (markPayment ⟨[], [("s_a", ⟨false, none⟩)]⟩ "s" "a" true "T").2.payments
        (paymentKey "s" "a") = some ⟨true, some "T"⟩) ∧
    markPayment ⟨[], []⟩ "s" "a" true "T" = (false, ⟨[], []⟩) :=
  ⟨markPayment_spec.1 ⟨[], [("s_a", ⟨false, none⟩)]⟩ "s" "a" "T" (by decide),
    markPayment_spec.2 ⟨[], []⟩ "s" "a" "T" true (by decide)⟩

/-- Claim C5: `delete_subscription` returns `False` when the key is absent
or the stored group id differs from the given one, and in both failure
cases it returns the store unchanged. -/
theorem deleteSubscription_failure_frame :
    ∀ (st : Store) (sub_id group_id : String),
      (dictGet? st.subscriptions sub_id = none ∨
        (∃ s, dictGet? st.subscriptions sub_id = some s ∧ s.group_id ≠ group_id)) →
      deleteSubscription st sub_id group_id = (false, st) := by
  intro st sub_id group_id h
  rcases h with h | ⟨s, hs, hneq⟩
  · simp [deleteSubscription, h]
  · simp [deleteSubscription, hs, hneq]

/-- Witness for C5: group mismatch and absent key at concrete stores. -/
theorem deleteSubscription_failure_frame_witness :
    deleteSubscription ⟨[("k", ⟨"n", "g1", 5, ["a"], 5, "c", "np"⟩)],
        [("k_a", ⟨false, none⟩)]⟩ "k" "g2" =
      (false, ⟨[("k", ⟨"n", "g1", 5, ["a"], 5, "c", "np"⟩)],
        [("k_a", ⟨false, none⟩)]⟩) ∧
    deleteSubscription ⟨[], []⟩ "missing" "g" = (false, ⟨[], []⟩) :=
  ⟨deleteSubscription_failure_frame _ "k" "g2"
      (Or.inr ⟨⟨"n", "g1", 5, ["a"], 5, "c", "np"⟩, rfl, by decide⟩),
    deleteSubscription_failure_frame ⟨[], []⟩ "missing" "g" (Or.inl rfl)⟩

/-- Claim C9: `mark_payment` with `paid=False` on an existing record sets
the paid flag to `False`, keeps the last-payment timestamp, leaves every
other payment record and all subscriptions unchanged, and returns `True`. -/
theorem markPayment_unpaid_frame :
    ∀ (st : Store) (sub_id member_id now : String) (old : Payment),
      dictGet? st.payments (paymentKey sub_id member_id) = some old →
      (markPayment st sub_id member_id false now).1 = true ∧
      (markPayment st sub_id member_id false now).2.subscriptions =
        st.subscriptions ∧
      dictGet? (markPayment st sub_id member_id false now).2.payments
        (paymentKey sub_id member_id) = some ⟨false, old.last_payment⟩ ∧
      ∀ k, k ≠ paymentKey sub_id member_id →
        dictGet? (markPayment st sub_id member_id false now).2.payments k =
          dictGet? st.payments k := by
  intro st sub_id member_id now old hold
  refine ⟨by simp [markPayment, hold], by simp [markPayment, hold], ?_, ?_⟩
  · simp [markPayment, hold, dictGet?_dictSet_self]
  · intro k hk
    simp only [markPayment, hold]
    exact dictGet?_dictSet_ne st.payments _ hk

/-- Witness for C9 at a concrete store with a second record. -/
theorem markPayment_unpaid_frame_witness :
    (markPayment ⟨[], [("s_a", ⟨true, some "L"⟩), ("s_b", ⟨true, some "M"⟩)]⟩
        "s" "a" false "N").1 = true ∧
    (markPayment ⟨[], [("s_a", ⟨true, some "L"⟩), ("s_b", ⟨true, some "M"⟩)]⟩
        "s" "a" false "N").2.subscriptions = [] ∧
    dictGet? (markPayment ⟨[], [("s_a", ⟨true, some "L"⟩), ("s_b", ⟨true, some "M"⟩)]⟩
        "s" "a" false "N").2.payments (paymentKey "s" "a") =
      some ⟨false, some "L"⟩ ∧
    dictGet? (markPayment ⟨[], [("s_a", ⟨true, some "L"⟩), ("s_b", ⟨true, some "M"⟩)]⟩
        "s" "a" false "N").2.payments "s_b" =
      dictGet? [("s_a", (⟨true, some "L"⟩ : Payment)), ("s_b", ⟨true, some "M"⟩)] "s_b" := by
  have h := markPayment_unpaid_frame
    ⟨[], [("s_a", ⟨true, some "L"⟩), ("s_b", ⟨true, some "M"⟩)]⟩
    "s" "a" "N" ⟨true, some "L"⟩ (by decide)
  exact ⟨h.1, h.2.1, h.2.2.1, h.2.2.2 "s_b" (by decide)⟩

/-- Claim C10: `get_member_dues` does not fail on a missing payment
record: the subscription still contributes an entry, with the paid flag
defaulting to `False`. -/
theorem getMemberDues_missing_default :
    ∀ (st : Store) (group_id member_id sub_id : String) (s : Subscription),
      (sub_id, s) ∈ st.subscriptions →
      s.group_id = group_id →
      member_id ∈ s.members →
      dictGet? st.payments (paymentKey sub_id member_id) = none →
      (⟨s.name, s.cost_per_person, false, s.next_payment⟩ : DueEntry) ∈
        getMemberDues st group_id member_id := by
  intro st group_id member_id sub_id s hmem hg hm hnone
  rw [getMemberDues]
  apply List.mem_map.mpr
  refine ⟨(sub_id, s), ?_, ?_⟩
  · apply List.mem_filter.mpr
    refine ⟨hmem, ?_⟩
    simp [hg, hm]
  · simp [dueOf, hnone]

/-- Witness for C10: one subscription of group `g` with member `a` and no
payment record at all. -/
theorem getMemberDues_missing_default_witness :
    (⟨"n", 5, false, "np"⟩ : DueEntry) ∈
      getMemberDues ⟨[("k", ⟨"n", "g", 5, ["a"], 5, "c", "np"⟩)], []⟩ "g" "a" :=
  getMemberDues_missing_default ⟨[("k", ⟨"n", "g", 5, ["a"], 5, "c", "np"⟩)], []⟩
    "g" "a" "k" ⟨"n", "g", 5, ["a"], 5, "c", "np"⟩ (by decide) rfl (by decide) rfl

/-- Claim C8: subscription keys combine group id, name and the creation
timestamp; two creations with the same `(groupId, name, timestamp)`
combination generate equal keys, and the second call overwrites the
first subscription's entry instead of adding a distinct one. -/
theorem key_collision_overwrite :
    ∀ (st : Store) (g n ts ca1 np1 ca2 np2 : String) (c1 c2 : ℚ)
      (ms1 ms2 : List String) (sid1 sid2 : String) (st1 st2 : Store),
      addSubscription st g n c1 ms1 ts ca1 np1 = some (sid1, st1) →
      addSubscription st1 g n c2 ms2 ts ca2 np2 = some (sid2, st2) →
      sid1 = sid2 ∧
      dictGet? st2.subscriptions sid2 =
        some ⟨n, g, c2, ms2, round2 (c2 / (ms2.length : ℚ)), ca2, np2⟩ ∧
      st2.subscriptions.length = st1.subscriptions.length := by
  intro st g n ts ca1 np1 ca2 np2 c1 c2 ms1 ms2 sid1 sid2 st1 st2 h1 h2
  by_cases hm1 : ms1 = []
  · simp [addSubscription, hm1] at h1
  by_cases hm2 : ms2 = []
  · simp [addSubscription, hm2] at h2
  simp only [addSubscription, if_neg hm1, Option.some.injEq, Prod.mk.injEq] at h1
  simp only [addSubscription, if_neg hm2, Option.some.injEq, Prod.mk.injEq] at h2
  obtain ⟨hsid1, hst1⟩ := h1
  obtain ⟨hsid2, hst2⟩ := h2
  subst hsid1
  subst hsid2
  subst hst1
  subst hst2
  refine ⟨rfl, ?_, ?_⟩
  · exact dictGet?_dictSet_self _ _ _
  · apply length_dictSet_of_has
    rw [dictHas, dictGet?_dictSet_self]
    rfl

/-- Witness for C8: two creations with identical group, name and
timestamp on the empty store; the outcome of each call is computed
explicitly, and the second overwrites the first entry. -/
theorem key_collision_overwrite_witness :
    ("g_n_t" : String) = "g_n_t" ∧
    dictGet? (⟨[("g_n_t", ⟨"n", "g", 2, ["a", "b"],
          round2 (2 / ((2 : ℕ) : ℚ)), "c2", "p2"⟩)],
        [("g_n_t_a", ⟨false, none⟩), ("g_n_t_b", ⟨false, none⟩)]⟩ : Store).subscriptions
        "g_n_t" =
      some ⟨"n", "g", 2, ["a", "b"], round2 (2 / ((2 : ℕ) : ℚ)), "c2", "p2"⟩ ∧
    (⟨[("g_n_t", ⟨"n", "g", 2, ["a", "b"],
          round2 (2 / ((2 : ℕ) : ℚ)), "c2", "p2"⟩)],
        [("g_n_t_a", ⟨false, none⟩), ("g_n_t_b", ⟨false, none⟩)]⟩ : Store).subscriptions.length =
      (⟨[("g_n_t", ⟨"n", "g", 1, ["a"],
          round2 (1 / ((1 : ℕ) : ℚ)), "c1", "p1"⟩)],
        [("g_n_t_a", ⟨false, none⟩)]⟩ : Store).subscriptions.length :=
  key_collision_overwrite ⟨[], []⟩ "g" "n" "t" "c1" "p1" "c2" "p2" 1 2
    ["a"] ["a", "b"] "g_n_t" "g_n_t" _ _ rfl rfl

/-- Claim C6: a successful `delete_subscription` removes the subscription
and every payment record of its members, and afterwards the member-dues
listing of any former member contains no entry produced by that
subscription. -/
theorem deleteSubscription_cascade :
    ∀ (st : Store) (sub_id group_id : String) (s : Subscription),
      storeInv st →
      dictGet? st.subscriptions sub_id = some s →
      s.group_id = group_id →
      (deleteSubscription st sub_id group_id).1 = true ∧
      dictHas (deleteSubscription st sub_id group_id).2.subscriptions sub_id = false ∧
      (∀ m ∈ s.members,
        dictHas (deleteSubscription st sub_id group_id).2.payments
          (paymentKey sub_id m) = false) ∧
      (∀ m ∈ s.members, sub_id ∉
        (getMemberDuesWithId (deleteSubscription st sub_id group_id).2
            group_id m).map Prod.fst) := by
  intro st sub_id group_id s hinv hs hg
  simp only [deleteSubscription, hs, if_pos hg]
  refine ⟨trivial, ?_, ?_, ?_⟩
  · rw [dictHas, dictGet?_dictDel_self]
    rfl
  · intro m hm
    rw [dictHas, dictGet?_foldl_dictDel_of_mem (paymentKey sub_id) s.members _ m hm]
    rfl
  · intro m hm hcontra
    rcases List.mem_map.mp hcontra with ⟨q, hq, hq1⟩
    rw [getMemberDuesWithId] at hq
    rcases List.mem_map.mp hq with ⟨p, hp, hpq⟩
    have hpd := (List.mem_filter.mp hp).1
    have hp1 : p.1 = sub_id := by
      rw [← hq1, ← hpq]
    exact (mem_dictDel.mp hpd).2 hp1

/-- Witness for C6: a store with one subscription and its payment record,
satisfying the invariant; deletion succeeds and cascades. -/
theorem deleteSubscription_cascade_witness :
    (deleteSubscription ⟨[("g_n_t", ⟨"n", "g", 5, ["a"], 5, "c", "np"⟩)],
        [("g_n_t_a", ⟨false, none⟩)]⟩ "g_n_t" "g").1 = true ∧
    dictHas (deleteSubscription ⟨[("g_n_t", ⟨"n", "g", 5, ["a"], 5, "c", "np"⟩)],
        [("g_n_t_a", ⟨false, none⟩)]⟩ "g_n_t" "g").2.subscriptions "g_n_t" = false ∧
    dictHas (deleteSubscription ⟨[("g_n_t", ⟨"n", "g", 5, ["a"], 5, "c", "np"⟩)],
        [("g_n_t_a", ⟨false, none⟩)]⟩ "g_n_t" "g").2.payments
      (paymentKey "g_n_t" "a") = false ∧
    "g_n_t" ∉
      (getMemberDuesWithId (deleteSubscription
          ⟨[("g_n_t", ⟨"n", "g", 5, ["a"], 5, "c", "np"⟩)],
            [("g_n_t_a", ⟨false, none⟩)]⟩ "g_n_t" "g").2 "g" "a").map Prod.fst := by
  have hinv : storeInv ⟨[("g_n_t", ⟨"n", "g", 5, ["a"], 5, "c", "np"⟩)],
      [("g_n_t_a", ⟨false, none⟩)]⟩ := by
    constructor
    · intro p hp
      simp only [List.mem_singleton] at hp
      subst hp
      exact ⟨"g_n_t", "a", by decide, rfl⟩
    · intro p hp m hm
      simp only [List.mem_singleton] at hp
      subst hp
      simp only [List.mem_singleton] at hm
      subst hm
      decide
  have h := deleteSubscription_cascade
    ⟨[("g_n_t", ⟨"n", "g", 5, ["a"], 5, "c", "np"⟩)], [("g_n_t_a", ⟨false, none⟩)]⟩
    "g_n_t" "g" ⟨"n", "g", 5, ["a"], 5, "c", "np"⟩ hinv rfl rfl
  exact ⟨h.1, h.2.1, h.2.2.1 "a" (by decide), h.2.2.2 "a" (by decide)⟩

/-- `withId` is injective in both arguments. -/
theorem withId_inj {a b : String} {s t : Subscription} :
    withId a s = withId b t ↔ a = b ∧ s = t := by
  cases s
  cases t
  simp only [withId, SubWithId.mk.injEq, Subscription.mk.injEq]
  tauto

/-- Counting an entry in the group listing equals counting the underlying
pair in the subscription table, provided the group matches. -/
theorem count_map_withId_filter (g : String) :
    ∀ (l : List (String × Subscription)) (k : String) (s : Subscription),
      s.group_id = g →
      ((l.filter (fun p => p.2.group_id == g)).map
          (fun p => withId p.1 p.2)).count (withId k s) = l.count (k, s) := by
  intro l
  induction l with
  | nil => intro k s _; rfl
  | cons p rest ih =>
      intro k s hg
      by_cases hpred : p.2.group_id = g
      · rw [List.filter_cons_of_pos (by simp [hpred]), List.map_cons,
          List.count_cons, List.count_cons, ih k s hg]
        congr 1
        by_cases hpk : p = (k, s)
        · simp [hpk]
        · have : ¬ (withId p.1 p.2 = withId k s) := by
            rw [withId_inj]
            intro ⟨h1, h2⟩
            exact hpk (by cases p; simp_all)
          simp [hpk, this]
      · rw [List.filter_cons_of_neg (by simp [hpred]), List.count_cons, ih k s hg]
        have : ¬ (p = (k, s)) := by
          intro hpk
          rw [hpk] at hpred
          exact hpred hg
        simp [this]

/-- Claim C7: after a successful creation, listing the group's
subscriptions contains the new subscription exactly once, and in general
the listing consists of exactly the stored subscriptions whose group id
matches. -/
theorem create_then_list :
    ∀ (st : Store) (g n ts ca np : String) (c : ℚ) (ms : List String)
      (sid : String) (st' : Store),
      0 < c → ms ≠ [] →
      (st.subscriptions.map Prod.fst).Nodup →
      addSubscription st g n c ms ts ca np = some (sid, st') →
      ((getSubscriptions st' g).count
          (withId sid ⟨n, g, c, ms, round2 (c / (ms.length : ℚ)), ca, np⟩) = 1) ∧
      (∀ (g' : String) (e : SubWithId), e ∈ getSubscriptions st' g' ↔
        ∃ p ∈ st'.subscriptions, p.2.group_id = g' ∧ e = withId p.1 p.2) := by
  intro st g n ts ca np c ms sid st' hc hms hnd heq
  simp only [addSubscription, if_neg hms, Option.some.injEq, Prod.mk.injEq] at heq
  obtain ⟨hsid, hst⟩ := heq
  subst hsid
  subst hst
  constructor
  · rw [getSubscriptions, count_map_withId_filter g _ _ _ rfl]
    exact count_dictSet_self _ _ hnd
  · intro g' e
    simp only [getSubscriptions, List.mem_map, List.mem_filter, beq_iff_eq]
    constructor
    · rintro ⟨p, ⟨hp, hpg⟩, hpe⟩
      exact ⟨p, hp, hpg, hpe.symm⟩
    · rintro ⟨p, hp, hpg, hpe⟩
      exact ⟨p, ⟨hp, hpg⟩, hpe.symm⟩

/-- Witness for C7 at the empty store. -/
theorem create_then_list_witness :
    (0 : ℚ) < 1 ∧ (["a"] : List String) ≠ [] ∧
    (getSubscriptions (⟨[("g_n_t", ⟨"n", "g", 1, ["a"],
          round2 (1 / ((1 : ℕ) : ℚ)), "c", "p"⟩)],
        [("g_n_t_a", ⟨false, none⟩)]⟩ : Store) "g").count
      (withId "g_n_t" ⟨"n", "g", 1, ["a"], round2 (1 / ((1 : ℕ) : ℚ)), "c", "p"⟩) = 1 :=
  ⟨one_pos, by decide,
    (create_then_list ⟨[], []⟩ "g" "n" "t" "c" "p" 1 ["a"] "g_n_t" _
      one_pos (by decide) (by simp) rfl).1⟩

/-- `add_subscription` preserves the store invariant. -/
theorem storeInv_addSubscription :
    ∀ (st : Store) (g n ts ca np : String) (c : ℚ) (ms : List String)
      (sid : String) (st' : Store),
      storeInv st → addSubscription st g n c ms ts ca np = some (sid, st') →
      storeInv st' := by
  intro st g n ts ca np c ms sid st' hinv heq
  by_cases hms : ms = []
  · simp [addSubscription, hms] at heq
  simp only [addSubscription, if_neg hms, Option.some.injEq, Prod.mk.injEq] at heq
  obtain ⟨hsid, hst⟩ := heq
  subst hsid
  subst hst
  constructor
  · intro p hp
    rcases mem_foldl_dictSet (paymentKey (subKey g n ts)) ⟨false, none⟩ ms
        st.payments p hp with ⟨m, _, hpm⟩ | hpold
    · refine ⟨subKey g n ts, m, ?_, by rw [hpm]⟩
      rw [dictHas, dictGet?_dictSet_self]
      rfl
    · obtain ⟨sid', m', hhas, hkey⟩ := hinv.1 p hpold
      refine ⟨sid', m', ?_, hkey⟩
      rw [dictHas_dictSet, hhas]
      rfl
  · intro q hq m hm
    rcases mem_dictSet hq with hqnew | hqold
    · subst hqnew
      exact dictHas_foldl_dictSet_of_mem _ _ ms st.payments m hm
    · exact dictHas_foldl_dictSet_mono _ _ ms st.payments _ (hinv.2 q hqold m hm)

/-- `mark_payment` preserves the store invariant. -/
theorem storeInv_markPayment :
    ∀ (st : Store) (sub_id member_id now : String) (paid : Bool),
      storeInv st → storeInv (markPayment st sub_id member_id paid now).2 := by
  intro st sub_id member_id now paid hinv
  cases hkey : dictGet? st.payments (paymentKey sub_id member_id) with
  | none => simpa [markPayment, hkey] using hinv
  | some old =>
      simp only [markPayment, hkey]
      constructor
      · intro p hp
        rcases mem_dictSet hp with hpnew | hpold
        · subst hpnew
          exact hinv.1 (paymentKey sub_id member_id, old) (dictGet?_mem hkey)
        · exact hinv.1 p hpold
      · intro q hq m hm
        rw [dictHas_dictSet, hinv.2 q hq m hm]
        rfl

/-- `delete_subscription` preserves the store invariant, provided the
deleted subscription's member payment keys account for every payment
record that references it, and collide with no surviving subscription's
member payment key. -/
theorem storeInv_deleteSubscription_sep :
    ∀ (st : Store) (sub_id group_id : String) (s : Subscription),
      storeInv st →
      dictGet? st.subscriptions sub_id = some s →
      (∀ p ∈ st.payments, (∃ m ∈ s.members, p.1 = paymentKey sub_id m) ∨
        refsExisting (dictDel st.subscriptions sub_id) p.1) →
      (∀ q ∈ st.subscriptions, q.1 ≠ sub_id → ∀ m' ∈ q.2.members,
        ∀ m ∈ s.members, paymentKey q.1 m' ≠ paymentKey sub_id m) →
      storeInv (deleteSubscription st sub_id group_id).2 := by
  intro st sub_id group_id s hinv hs h1 h2
  by_cases hg : s.group_id = group_id
  · simp only [deleteSubscription, hs, if_pos hg]
    constructor
    · intro p hp
      obtain ⟨hpd, hnot⟩ := (mem_foldl_dictDel (paymentKey sub_id) s.members
        st.payments p).mp hp
      rcases h1 p hpd with ⟨m, hm, hkey⟩ | hrefs
      · exact absurd hkey (hnot m hm)
      · exact hrefs
    · intro q hq m' hm'
      obtain ⟨hqs, hqne⟩ := mem_dictDel.mp hq
      rw [dictHas, dictGet?_foldl_dictDel_of_ne (paymentKey sub_id) s.members
        st.payments _ (h2 q hqs hqne m' hm')]
      exact hinv.2 q hqs m' hm'
  · simpa [deleteSubscription, hs, hg] using hinv

/-- Claim C3 (amended): `add_subscription` and `mark_payment` preserve the
section-3 invariant on every store satisfying it (the two read operations
return lists and never modify the store); `delete_subscription` preserves
it only under a separation condition on the flat concatenated payment
keys: every payment record referencing the deleted subscription is one of
its member records, and no surviving subscription's member payment key
coincides with a deleted one. -/
theorem invariant_preservation_amended :
    (∀ (st : Store) (g n ts ca np : String) (c : ℚ) (ms : List String)
        (sid : String) (st' : Store),
      storeInv st → addSubscription st g n c ms ts ca np = some (sid, st') →
      storeInv st') ∧
    (∀ (st : Store) (sub_id member_id now : String) (paid : Bool),
      storeInv st → storeInv (markPayment st sub_id member_id paid now).2) ∧
    (∀ (st : Store) (sub_id group_id : String) (s : Subscription),
      storeInv st →
      dictGet? st.subscriptions sub_id = some s →
      (∀ p ∈ st.payments, (∃ m ∈ s.members, p.1 = paymentKey sub_id m) ∨
        refsExisting (dictDel st.subscriptions sub_id) p.1) →
      (∀ q ∈ st.subscriptions, q.1 ≠ sub_id → ∀ m' ∈ q.2.members,
        ∀ m ∈ s.members, paymentKey q.1 m' ≠ paymentKey sub_id m) →
      storeInv (deleteSubscription st sub_id group_id).2) :=
  ⟨storeInv_addSubscription, storeInv_markPayment, storeInv_deleteSubscription_sep⟩

/-- Witness for the amended C3: the three preserved operations applied at
concrete stores. -/
theorem invariant_preservation_amended_witness :
    storeInv ⟨[("g_n_t", ⟨"n", "g", 1, ["a"], round2 (1 / ((1 : ℕ) : ℚ)), "c", "p"⟩)],
      [("g_n_t_a", ⟨false, none⟩)]⟩ ∧
    storeInv (markPayment ⟨[("k", ⟨"n", "g", 5, ["a"], 5, "c", "np"⟩)],
      [("k_a", ⟨false, none⟩)]⟩ "k" "a" true "T").2 ∧
    storeInv (deleteSubscription ⟨[("k", ⟨"n", "g", 5, ["a"], 5, "c", "np"⟩)],
      [("k_a", ⟨false, none⟩)]⟩ "k" "g").2 := by
  have hw : storeInv ⟨[("k", ⟨"n", "g", 5, ["a"], 5, "c", "np"⟩)],
      [("k_a", ⟨false, none⟩)]⟩ := by
    constructor
    · intro p hp
      simp only [List.mem_singleton] at hp
      subst hp
      exact ⟨"k", "a", by decide, rfl⟩
    · intro q hq m hm
      simp only [List.mem_singleton] at hq
      subst hq
      simp only [List.mem_singleton] at hm
      subst hm
      decide
  refine ⟨?_, ?_, ?_⟩
  · exact invariant_preservation_amended.1 ⟨[], []⟩ "g" "n" "t" "c" "p" 1 ["a"]
      "g_n_t" _ (by constructor <;> simp [storeInv]) rfl
  · exact invariant_preservation_amended.2.1 _ "k" "a" "T" true hw
  · refine invariant_preservation_amended.2.2 _ "k" "g"
      ⟨"n", "g", 5, ["a"], 5, "c", "np"⟩ hw rfl ?_ ?_
    · intro p hp
      simp only [List.mem_singleton] at hp
      subst hp
      exact Or.inl ⟨"a", by decide, rfl⟩
    · intro q hq hne m' hm' m hm
      simp only [List.mem_singleton] at hq
      exact absurd (by rw [hq]) hne

/-- Counterexample for C3 as stated: a store reachable by two creations
whose flat payment keys collide (`"g_a_1" / "x_y"` versus
`"g_a_1_x" / "y"` both yield `"g_a_1_x_y"`) satisfies the invariant, yet
a successful `delete_subscription` of the first subscription deletes the
shared record and strands the second subscription's member. -/
theorem invariant_delete_counterexample :
    addSubscription ⟨[], []⟩ "g" "a" 1 ["x_y"] "1" "c1" "p1" =
      some ("g_a_1", ⟨[("g_a_1", ⟨"a", "g", 1, ["x_y"],
          round2 (1 / ((1 : ℕ) : ℚ)), "c1", "p1"⟩)],
        [("g_a_1_x_y", ⟨false, none⟩)]⟩) ∧
    addSubscription ⟨[("g_a_1", ⟨"a", "g", 1, ["x_y"],
          round2 (1 / ((1 : ℕ) : ℚ)), "c1", "p1"⟩)],
        [("g_a_1_x_y", ⟨false, none⟩)]⟩ "g" "a_1" 1 ["y"] "x" "c2" "p2" =
      some ("g_a_1_x", ⟨[("g_a_1", ⟨"a", "g", 1, ["x_y"],
            round2 (1 / ((1 : ℕ) : ℚ)), "c1", "p1"⟩),
          ("g_a_1_x", ⟨"a_1", "g", 1, ["y"],
            round2 (1 / ((1 : ℕ) : ℚ)), "c2", "p2"⟩)],
        [("g_a_1_x_y", ⟨false, none⟩)]⟩) ∧
    storeInv ⟨[("g_a_1", ⟨"a", "g", 1, ["x_y"],
          round2 (1 / ((1 : ℕ) : ℚ)), "c1", "p1"⟩),
        ("g_a_1_x", ⟨"a_1", "g", 1, ["y"],
          round2 (1 / ((1 : ℕ) : ℚ)), "c2", "p2"⟩)],
      [("g_a_1_x_y", ⟨false, none⟩)]⟩ ∧
    (deleteSubscription ⟨[("g_a_1", ⟨"a", "g", 1, ["x_y"],
          round2 (1 / ((1 : ℕ) : ℚ)), "c1", "p1"⟩),
        ("g_a_1_x", ⟨"a_1", "g", 1, ["y"],
          round2 (1 / ((1 : ℕ) : ℚ)), "c2", "p2"⟩)],
      [("g_a_1_x_y", ⟨false, none⟩)]⟩ "g_a_1" "g").1 = true ∧
    ¬ storeInv (deleteSubscription ⟨[("g_a_1", ⟨"a", "g", 1, ["x_y"],
          round2 (1 / ((1 : ℕ) : ℚ)), "c1", "p1"⟩),
        ("g_a_1_x", ⟨"a_1", "g", 1, ["y"],
          round2 (1 / ((1 : ℕ) : ℚ)), "c2", "p2"⟩)],
      [("g_a_1_x_y", ⟨false, none⟩)]⟩ "g_a_1" "g").2 := by
  refine ⟨rfl, rfl, ?_, rfl, ?_⟩
  · constructor
    · intro p hp
      simp only [List.mem_singleton] at hp
      subst hp
      exact ⟨"g_a_1", "x_y", by decide, rfl⟩
    · intro q hq m hm
      simp only [List.mem_cons, List.not_mem_nil, or_false] at hq
      rcases hq with hq | hq
      · subst hq
        simp only [List.mem_singleton] at hm
        subst hm
        decide
      · subst hq
        simp only [List.mem_singleton] at hm
        subst hm
        decide
  · intro h
    have hred : (deleteSubscription ⟨[("g_a_1", ⟨"a", "g", 1, ["x_y"],
          round2 (1 / ((1 : ℕ) : ℚ)), "c1", "p1"⟩),
        ("g_a_1_x", ⟨"a_1", "g", 1, ["y"],
          round2 (1 / ((1 : ℕ) : ℚ)), "c2", "p2"⟩)],
      [("g_a_1_x_y", ⟨false, none⟩)]⟩ "g_a_1" "g").2 =
        ⟨[("g_a_1_x", ⟨"a_1", "g", 1, ["y"],
          round2 (1 / ((1 : ℕ) : ℚ)), "c2", "p2"⟩)], []⟩ := rfl
    rw [hred] at h
    have hb := h.2 ("g_a_1_x", ⟨"a_1", "g", 1, ["y"],
        round2 (1 / ((1 : ℕ) : ℚ)), "c2", "p2"⟩)
      (List.mem_singleton.mpr rfl) "y" (List.mem_singleton.mpr rfl)
    exact absurd hb (by decide)

/-- Claim C1 (amended): the per-member cost stored by `add_subscription`
is `round(totalCost / n, 2)`, and `n * round(totalCost / n, 2)` is within
`n * 0.005` of `totalCost` (half a rounding unit per member); the
one-rounding-unit (`0.01`) bound of the claim does not hold in general. -/
theorem costSplit_amended :
    ∀ (st : Store) (g n ts ca np : String) (c : ℚ) (ms : List String)
      (sid : String) (st' : Store),
      0 < c → ms ≠ [] →
      addSubscription st g n c ms ts ca np = some (sid, st') →
      dictGet? st'.subscriptions sid =
        some ⟨n, g, c, ms, round2 (c / (ms.length : ℚ)), ca, np⟩ ∧
      |c - (ms.length : ℚ) * round2 (c / (ms.length : ℚ))| ≤
        (ms.length : ℚ) * (1 / 200) := by
  intro st g n ts ca np c ms sid st' hc hms heq
  simp only [addSubscription, if_neg hms, Option.some.injEq, Prod.mk.injEq] at heq
  obtain ⟨hsid, hst⟩ := heq
  subst hsid
  subst hst
  refine ⟨dictGet?_dictSet_self _ _ _, ?_⟩
  have hlen : (0 : ℚ) < (ms.length : ℚ) := by
    have : 0 < ms.length := List.length_pos.mpr hms
    exact_mod_cast this
  have hne : (ms.length : ℚ) ≠ 0 := ne_of_gt hlen
  have hb := abs_sub_round2 (c / (ms.length : ℚ))
  have hkey : c - (ms.length : ℚ) * round2 (c / (ms.length : ℚ)) =
      (ms.length : ℚ) * (c / (ms.length : ℚ) - round2 (c / (ms.length : ℚ))) := by
    field_simp
  rw [hkey, abs_mul, abs_of_pos hlen]
  exact mul_le_mul_of_nonneg_left hb (le_of_lt hlen)

/-- Witness for the amended C1 at a one-member creation. -/
theorem costSplit_amended_witness :
    (0 : ℚ) < 1 ∧ (["a"] : List String) ≠ [] ∧
    dictGet? (⟨[("g_n_t", ⟨"n", "g", 1, ["a"],
          round2 (1 / ((1 : ℕ) : ℚ)), "c", "p"⟩)],
        [("g_n_t_a", ⟨false, none⟩)]⟩ : Store).subscriptions "g_n_t" =
      some ⟨"n", "g", 1, ["a"], round2 (1 / ((1 : ℕ) : ℚ)), "c", "p"⟩ ∧
    |(1 : ℚ) - ((["a"] : List String).length : ℚ) *
        round2 (1 / ((["a"] : List String).length : ℚ))| ≤
      ((["a"] : List String).length : ℚ) * (1 / 200) := by
  have h := costSplit_amended ⟨[], []⟩ "g" "n" "t" "c" "p" 1 ["a"] "g_n_t" _
    one_pos (by decide) rfl
  exact ⟨one_pos, by decide, h.1, h.2⟩

/-- Counterexample for C1 as stated: splitting a total cost of `1` across
seven members stores a per-member cost of `round(1/7, 2) = 0.14`, and
`7 * 0.14 = 0.98` differs from `1` by `0.02`, more than one rounding
unit. -/
theorem costSplit_unit_counterexample :
    addSubscription ⟨[], []⟩ "g" "N" 1 ["m1", "m2", "m3", "m4", "m5", "m6", "m7"]
        "t" "c" "p" =
      some ("g_N_t", ⟨[("g_N_t", ⟨"N", "g", 1,
          ["m1", "m2", "m3", "m4", "m5", "m6", "m7"],
          round2 (1 / ((7 : ℕ) : ℚ)), "c", "p"⟩)],
        [("g_N_t_m1", ⟨false, none⟩), ("g_N_t_m2", ⟨false, none⟩),
          ("g_N_t_m3", ⟨false, none⟩), ("g_N_t_m4", ⟨false, none⟩),
          ("g_N_t_m5", ⟨false, none⟩), ("g_N_t_m6", ⟨false, none⟩),
          ("g_N_t_m7", ⟨false, none⟩)]⟩) ∧
    round2 (1 / ((7 : ℕ) : ℚ)) = 7 / 50 ∧
    ¬ (|(1 : ℚ) - 7 * round2 (1 / ((7 : ℕ) : ℚ))| ≤ 1 / 100) := by
  have hf : ⌊(100 : ℚ) * (1 / ((7 : ℕ) : ℚ))⌋ = 14 := by
    rw [Int.floor_eq_iff]
    norm_num
  have hr : round2 (1 / ((7 : ℕ) : ℚ)) = 7 / 50 := by
    rw [round2, roundHalfEven]
    simp only [hf]
    norm_num
  refine ⟨rfl, hr, ?_⟩
  rw [hr, abs_le]
  norm_num

/-- Claim C2 (amended): `add_subscription` itself performs no input
validation: every call with a non-empty member list succeeds, whatever
the total cost (including zero and negative values), and a call with an
empty member list reaches the unguarded division and raises
`ZeroDivisionError` (modelled as `none`) instead of signalling
`InvalidInput`. -/
theorem create_no_validation :
    (∀ (st : Store) (g n ts ca np : String) (c : ℚ),
      addSubscription st g n c [] ts ca np = none) ∧
    (∀ (st : Store) (g n ts ca np : String) (c : ℚ) (ms : List String),
      ms ≠ [] → (addSubscription st g n c ms ts ca np).isSome = true) := by
  constructor
  · intro st g n ts ca np c
    simp [addSubscription]
  · intro st g n ts ca np c ms hms
    simp [addSubscription, hms]

/-- Witness for the amended C2: a negative total cost is accepted, and
the empty member list hits the division. -/
theorem create_no_validation_witness :
    addSubscription ⟨[], []⟩ "g" "N" (-5) [] "t" "c" "p" = none ∧
    ((["alice"] : List String) ≠ [] ∧
      (addSubscription ⟨[], []⟩ "g" "N" (-5) ["alice"] "t" "c" "p").isSome = true) :=
  ⟨create_no_validation.1 ⟨[], []⟩ "g" "N" "t" "c" "p" (-5),
    by decide,
    create_no_validation.2 ⟨[], []⟩ "g" "N" "t" "c" "p" (-5) ["alice"] (by decide)⟩

/-- Counterexample for C2 as stated: the call with `totalCost = -5`
violates the precondition `totalCost > 0` yet is not rejected — it
succeeds and stores the subscription. -/
theorem create_validation_counterexample :
    ¬ ((0 : ℚ) < -5) ∧
    (addSubscription ⟨[], []⟩ "g" "N" (-5) ["alice"] "t" "c" "p").isSome = true := by
  constructor
  · norm_num
  · rfl
